import Mathlib

/-
Verification of the mkpy build orchestrator (src/mkpy/make.py) as a shallow
embedding.  Python regular expressions are modelled abstractly: a compiled
pattern is a function from the subject string to the optional list of captured
groups returned by fullmatch.  A template string is modelled as the function
taking the captured groups to the formatted concrete name.  The filesystem is
a snapshot mapping each path to the optional modification time of an existing
file.  Machine effects (exceptions) are modelled with Except; the possibly
unbounded recursion of the graph builder is modelled with explicit fuel, where
a result of none means the recursion did not complete within the given fuel.
-/

namespace Mkpy

/-- Filesystem snapshot: maps a path to the mtime of an existing file. -/
abbrev FS := String → Option Nat

/-- A compiled regular expression: fullmatch returning captured groups. -/
abbrev Pattern := String → Option (List String)

/-- A template string, as the function from captured groups to the name. -/
abbrev Template := List String → String

/-- The mkpy domain exception taxonomy (class MKPY_Exception and children). -/
inductive MkpyExc where
  | makefileUsage (detail : String)
  | phonyUsage (target_name : String)
  | missingTarget (target_name : String)
  | duplicateTarget (target_name : String)
  | circularDependency (target_name : String) (depend_name : String)
  | makeBlocked
  | makeFinished
  | generic (msg : String)
deriving DecidableEq, Repr

/-- A Python exception: either a domain MKPY_Exception or any other error. -/
inductive PyExc where
  | mkpy (e : MkpyExc)
  | other (msg : String)
deriving DecidableEq, Repr

/-- A recipe normalized to the uniform 3-argument shape, acting on the
filesystem: recipe(target, depends, prerequisites). -/
abbrev Recipe := String → List String → List String → FS → Except PyExc FS

/-- class Requirements (make.py lines 17-20). -/
structure Requirements where
  depends : List Template
  prerequisites : List Template
  is_phony : Bool

/-- class Rule (make.py lines 23-26). -/
structure Rule where
  matcher : Pattern
  recipe : Recipe
  requirements : Requirements

/-- class Node (make.py lines 29-35). -/
inductive Node where
  | mk (name : String) (is_phony : Bool) (is_prerequisite : Bool)
       (recipe : Recipe) (depends : List Node) (prerequisites : List Node)

def Node.name : Node → String
  | .mk n _ _ _ _ _ => n

def Node.is_phony : Node → Bool
  | .mk _ p _ _ _ _ => p

def Node.is_prerequisite : Node → Bool
  | .mk _ _ p _ _ _ => p

def Node.recipe : Node → Recipe
  | .mk _ _ _ r _ _ => r

def Node.depends : Node → List Node
  | .mk _ _ _ _ d _ => d

def Node.prerequisites : Node → List Node
  | .mk _ _ _ _ _ p => p

/-- A user-supplied recipe callable before arity normalization; the
constructor records how many positional parameters the callable accepts
(inspect.signature(recipe).parameters).  argsMore n stands for a callable
accepting 4 + n parameters. -/
inductive UserRecipe where
  | args0 (f : FS → Except PyExc FS)
  | args1 (f : String → FS → Except PyExc FS)
  | args2 (f : String → List String → FS → Except PyExc FS)
  | args3 (f : Recipe)
  | argsMore (n : Nat)

/-- len(inspect.signature(recipe).parameters). -/
def UserRecipe.numParameters : UserRecipe → Nat
  | .args0 _ => 0
  | .args1 _ => 1
  | .args2 _ => 2
  | .args3 _ => 3
  | .argsMore n => n + 4

/-- def single_target (make.py lines 73-94).  The global rule list is passed
and returned explicitly; re.compile is the identity on the abstract Pattern. -/
def single_target (rules : List Rule) (recipe : UserRecipe) (name : Pattern)
    (depends : List Template) (prerequisites : List Template)
    (is_phony : Bool) : Except MkpyExc (List Rule) :=
  match recipe with
  | .args0 f =>
      .ok (rules ++ [⟨name, fun _ _ _ => f, ⟨depends, prerequisites, is_phony⟩⟩])
  | .args1 f =>
      .ok (rules ++ [⟨name, fun target _ _ => f target, ⟨depends, prerequisites, is_phony⟩⟩])
  | .args2 f =>
      .ok (rules ++ [⟨name, fun target ds _ => f target ds, ⟨depends, prerequisites, is_phony⟩⟩])
  | .args3 f =>
      .ok (rules ++ [⟨name, f, ⟨depends, prerequisites, is_phony⟩⟩])
  | .argsMore _ =>
      .error (.makefileUsage ("Too many arguments for rule body"))

/-- The depends and prerequisites arguments of def target may be a proper
list of templates, or (erroneously) a single string. -/
inductive TemplatesArg where
  | str (s : String)
  | list (ts : List Template)

/-- The recipe argument of def target: a single callable or a list. -/
inductive RecipeArg where
  | single (r : UserRecipe)
  | list (rs : List UserRecipe)

/-- def target (make.py lines 97-118). -/
def target (rules : List Rule) (recipe : RecipeArg) (name : Pattern)
    (depends : TemplatesArg) (prerequisites : TemplatesArg)
    (is_phony : Bool) : Except MkpyExc (List Rule) :=
  match depends with
  | .str _ => .error (.makefileUsage ("Dependency list must not be a string"))
  | .list ds =>
    match prerequisites with
    | .str _ => .error (.makefileUsage ("Prerequisite list must not be a string"))
    | .list ps =>
      match recipe with
      | .list rs =>
          rs.foldlM (fun acc item => single_target acc item name ds ps is_phony) rules
      | .single r => single_target rules r name ds ps is_phony

/-- def source_file_recipe (make.py lines 129-132): assert the emptiness of
the argument lists and that the target file exists. -/
def source_file_recipe : Recipe := fun target depends prerequisites fs =>
  if depends.length = 0 then
    if prerequisites.length = 0 then
      if (fs target).isSome then .ok fs
      else .error (.other ("AssertionError"))
    else .error (.other ("AssertionError"))
  else .error (.other ("AssertionError"))

/-- The type of the recursive resolution function threaded through the
helpers of generate_dependency_graph at one smaller fuel. -/
abbrev Resolver := String → List String → Bool → Option (Except MkpyExc Node)

/-- The element-by-element forcing of list(map(get_subgraph, templates))
inside generate_dependency_graph (make.py lines 143-150 and 154-155): each
template is formatted with the captured groups; a name already present in
satisfied_targets raises CircularDependencyException before any recursion;
otherwise the builder recurses with the name added to the ancestor set. -/
def expand_templates (recurse : Resolver) (target_name : String)
    (satisfied_targets : List String) (groups : List String)
    (is_prerequisite : Bool) : List Template → Option (Except MkpyExc (List Node))
  | [] => some (.ok [])
  | template :: rest =>
    let depend_name := template groups
    if depend_name ∈ satisfied_targets then
      some (.error (.circularDependency target_name depend_name))
    else
      match recurse depend_name (depend_name :: satisfied_targets) is_prerequisite with
      | none => none
      | some (.error e) => some (.error e)
      | some (.ok node) =>
        match expand_templates recurse target_name satisfied_targets groups is_prerequisite rest with
        | none => none
        | some (.error e) => some (.error e)
        | some (.ok nodes) => some (.ok (node :: nodes))

/-- The for-loop of generate_dependency_graph (make.py lines 140-169),
with its two accumulators top_level and last_missing_target.  Since the maps
over the template lists are lazy in Python, DuplicateTargetException is
raised as soon as a further rule matches while top_level is already set,
before the further rule expands its own templates; MissingTargetException
raised while forcing either list is caught and remembered as the fallback,
and any other exception propagates. -/
def try_rules (recurse : Resolver) (target_name : String)
    (satisfied_targets : List String) (is_prerequisite : Bool) :
    List Rule → Option Node → Option MkpyExc →
    Option (Except MkpyExc (Option Node × Option MkpyExc))
  | [], top_level, last_missing_target => some (.ok (top_level, last_missing_target))
  | rule :: rest, top_level, last_missing_target =>
    match rule.matcher target_name with
    | none => try_rules recurse target_name satisfied_targets is_prerequisite rest top_level last_missing_target
    | some groups =>
      if top_level.isSome then some (.error (.duplicateTarget target_name))
      else
        match expand_templates recurse target_name satisfied_targets groups false rule.requirements.depends with
        | none => none
        | some (.error (.missingTarget t)) =>
            try_rules recurse target_name satisfied_targets is_prerequisite rest top_level (some (.missingTarget t))
        | some (.error e) => some (.error e)
        | some (.ok depend_nodes) =>
          match expand_templates recurse target_name satisfied_targets groups true rule.requirements.prerequisites with
          | none => none
          | some (.error (.missingTarget t)) =>
              try_rules recurse target_name satisfied_targets is_prerequisite rest top_level (some (.missingTarget t))
          | some (.error e) => some (.error e)
          | some (.ok prerequisite_nodes) =>
            try_rules recurse target_name satisfied_targets is_prerequisite rest
              (some (Node.mk target_name rule.requirements.is_phony is_prerequisite rule.recipe depend_nodes prerequisite_nodes))
              last_missing_target

/-- def generate_dependency_graph (make.py lines 135-186).  The global rule
list and the filesystem snapshot are passed explicitly; the ancestor set
satisfied_targets is modelled as a list; fuel bounds the recursion depth and
a result of none means the fuel was exhausted. -/
def generate_dependency_graph (rules : List Rule) (fs : FS) :
    Nat → String → List String → Bool → Option (Except MkpyExc Node)
  | 0, _, _, _ => none
  | fuel + 1, target_name, satisfied_targets, is_prerequisite =>
    match try_rules (generate_dependency_graph rules fs fuel) target_name
        satisfied_targets is_prerequisite rules none none with
    | none => none
    | some (.error e) => some (.error e)
    | some (.ok (some top_level, _)) => some (.ok top_level)
    | some (.ok (none, last_missing_target)) =>
      if (fs target_name).isSome then
        some (.ok (Node.mk target_name false is_prerequisite source_file_recipe [] []))
      else
        some (.error (last_missing_target.getD (.missingTarget target_name)))

/-- class MakeState (make.py lines 197-200). -/
inductive MakeState where
  | NOT_YET_MADE
  | CURRENTLY_MAKING
  | FINISHED_MAKING
deriving DecidableEq, Repr

/-- The shared target_states map (make.py line 203): a defaultdict whose
default value is NOT_YET_MADE is modelled as a total function. -/
abbrev TargetStates := String → MakeState

/-- The initial target_states: every name defaults to NOT_YET_MADE. -/
def initial_target_states : TargetStates := fun _ => .NOT_YET_MADE

/-- Pointwise update of the target_states map. -/
def set_state (states : TargetStates) (n : String) (v : MakeState) : TargetStates :=
  fun m => if m = n then v else states m

theorem sizeOf_list_append (l1 l2 : List Node) :
    sizeOf (l1 ++ l2) + 1 = sizeOf l1 + sizeOf l2 := by
  induction l1 with
  | nil => simp; omega
  | cons a l ih => simp [List.cons_append]; omega

theorem sizeOf_children_lt (n : Node) :
    sizeOf (n.depends ++ n.prerequisites) < sizeOf n := by
  cases n with
  | mk nm ph pr rc d p =>
    have h := sizeOf_list_append d p
    simp [Node.depends, Node.prerequisites]
    omega

mutual

/-- def get_next_node_to_build (make.py lines 206-223): depth-first claim
search.  The two control-flow exceptions MakeBlockedException and
MakeFinishedException become the error cases makeBlocked and makeFinished. -/
def get_next_node_to_build (states : TargetStates) (top_level : Node) :
    Except MkpyExc Node :=
  if states top_level.name ≠ MakeState.NOT_YET_MADE then .error .makeFinished
  else search_children states top_level (top_level.depends ++ top_level.prerequisites) false
termination_by sizeOf top_level
decreasing_by exact sizeOf_children_lt top_level

/-- The loop of get_next_node_to_build over top_level.depends +
top_level.prerequisites, carrying the waiting_for_depend flag.  A child in
state NOT_YET_MADE is recursed into, returning its result unless it is
makeBlocked, which sets the flag; a child in state CURRENTLY_MAKING sets the
flag; after the loop the flag raises makeBlocked, else top_level is claimed. -/
def search_children (states : TargetStates) (top_level : Node) :
    List Node → Bool → Except MkpyExc Node
  | [], waiting_for_depend =>
      if waiting_for_depend then .error .makeBlocked else .ok top_level
  | node :: rest, waiting_for_depend =>
      if states node.name = MakeState.NOT_YET_MADE then
        match get_next_node_to_build states node with
        | .ok next => .ok next
        | .error .makeBlocked =>
            search_children states top_level rest
              (if states node.name = MakeState.CURRENTLY_MAKING then true else true)
        | .error e => .error e
      else
        search_children states top_level rest
          (if states node.name = MakeState.CURRENTLY_MAKING then true else waiting_for_depend)
termination_by children _ => sizeOf children
decreasing_by all_goals (simp; try omega)

end

/-- The two global failure cells (make.py lines 227-228):
has_any_worker_thrown_an_exception and worker_mkpy_exception. -/
structure FailureState where
  has_any_worker_thrown_an_exception : Bool
  worker_mkpy_exception : Option MkpyExc
deriving DecidableEq, Repr

/-- The failure cells before any worker has failed. -/
def initial_failure_state : FailureState := ⟨false, none⟩

/-- def except_hook (make.py lines 231-239): called once per worker whose
body escaped with an exception.  The flag is always set; a domain
MKPY_Exception is stored in worker_mkpy_exception (overwriting any earlier
value), while any other exception only gets its traceback printed. -/
def except_hook (st : FailureState) (exc_value : PyExc) : FailureState :=
  match exc_value with
  | .mkpy e => ⟨true, some e⟩
  | .other _ => ⟨true, st.worker_mkpy_exception⟩

/-- The failure state after a sequence of worker exceptions has been
delivered to except_hook in order. -/
def run_except_hooks (st : FailureState) (excs : List PyExc) : FailureState :=
  excs.foldl except_hook st

/-- The tail of def run_make (make.py lines 307-308): after all workers are
joined, re-raise the captured domain error, or a generic error when only
non-domain errors were observed. -/
def run_make_result (st : FailureState) : Except MkpyExc Unit :=
  if st.has_any_worker_thrown_an_exception then
    .error (st.worker_mkpy_exception.getD (.generic ("Exception thrown in worker")))
  else .ok ()

/-- Path(p).exists() on the filesystem snapshot. -/
def fs_exists (fs : FS) (p : String) : Bool := (fs p).isSome

/-- Path(p).stat().st_mtime: raises FileNotFoundError when p is missing. -/
def fs_mtime (fs : FS) (p : String) : Except PyExc Nat :=
  match fs p with
  | some t => .ok t
  | none => .error (.other ("FileNotFoundError"))

/-- The final loop of should_run_node_recipe (make.py lines 256-260): does
some direct dependency have a modification time strictly later than
top_level_timestamp? -/
def any_depend_newer (fs : FS) (top_level_timestamp : Nat) :
    List Node → Except PyExc Bool
  | [] => .ok false
  | depend :: rest =>
    match fs_mtime fs depend.name with
    | .error e => .error e
    | .ok t =>
      if t > top_level_timestamp then .ok true
      else any_depend_newer fs top_level_timestamp rest

/-- def should_run_node_recipe (make.py lines 242-260): the staleness
policy. -/
def should_run_node_recipe (fs : FS) (node : Node) : Except PyExc Bool :=
  if node.is_phony then .ok true
  else if ¬ fs_exists fs node.name then .ok true
  else if node.is_prerequisite then .ok false
  else if node.depends.any (fun depend => depend.is_phony) then .ok true
  else
    match fs_mtime fs node.name with
    | .error e => .error e
    | .ok top_level_timestamp => any_depend_newer fs top_level_timestamp node.depends

/-- The recipe-execution section of def worker_thread (make.py lines
277-286), run outside the lock on a claimed node: evaluate the staleness
policy, run the recipe when stale, and for a non-phony node verify that the
recipe produced the target file, raising PhonyUsageException otherwise.  The
result is the filesystem after the section, or the exception the section
raised. -/
def build_claimed_node (fs : FS) (next_node : Node) : Except PyExc FS :=
  match should_run_node_recipe fs next_node with
  | .error e => .error e
  | .ok false => .ok fs
  | .ok true =>
    match next_node.recipe next_node.name (next_node.depends.map Node.name)
        (next_node.prerequisites.map Node.name) fs with
    | .error e => .error e
    | .ok fs2 =>
      if next_node.is_phony = false ∧ (fs2 next_node.name).isNone then
        .error (.mkpy (.phonyUsage next_node.name))
      else .ok fs2

/-- One configuration of the shared scheduler state: the target_states map
together with, for each worker index, the node that worker has claimed and
not yet finished (none when the worker is between claims). -/
structure SchedulerConfig where
  states : TargetStates
  holding : Nat → Option Node

/-- Pointwise update of the holdings map. -/
def set_holding (holding : Nat → Option Node) (w : Nat) (v : Option Node) :
    Nat → Option Node :=
  fun u => if u = w then v else holding u

/-- The scheduler configuration at the start of run_make: every name is
NOT_YET_MADE and no worker holds a node. -/
def scheduler_init : SchedulerConfig := ⟨initial_target_states, fun _ => none⟩

/-- A label naming which worker performed which locked critical section. -/
inductive SchedulerLabel where
  | claim (worker : Nat) (node : Node)
  | finish (worker : Nat) (node : Node)

/-- The two locked critical sections of def worker_thread, as an atomic step
relation on the shared scheduler state.  claim is lines 266-268: under the
lock, get_next_node_to_build finds the next node and its state is set to
CURRENTLY_MAKING; the worker then holds that node.  finish is lines 288-289:
under the lock, the held node is marked FINISHED_MAKING and released. -/
inductive SchedulerStep (top_level : Node) :
    SchedulerConfig → SchedulerLabel → SchedulerConfig → Prop where
  | claim (c : SchedulerConfig) (w : Nat) (n : Node)
      (hfree : c.holding w = none)
      (hsearch : get_next_node_to_build c.states top_level = .ok n) :
      SchedulerStep top_level c (.claim w n)
        ⟨set_state c.states n.name .CURRENTLY_MAKING, set_holding c.holding w (some n)⟩
  | finish (c : SchedulerConfig) (w : Nat) (n : Node)
      (hheld : c.holding w = some n) :
      SchedulerStep top_level c (.finish w n)
        ⟨set_state c.states n.name .FINISHED_MAKING, set_holding c.holding w none⟩

/-- A finite interleaving of critical sections of the worker pool. -/
inductive SchedulerPath (top_level : Node) :
    SchedulerConfig → List SchedulerLabel → SchedulerConfig → Prop where
  | nil (c : SchedulerConfig) : SchedulerPath top_level c [] c
  | cons {a b c : SchedulerConfig} {l : SchedulerLabel} {ls : List SchedulerLabel} :
      SchedulerStep top_level a l b → SchedulerPath top_level b ls c →
      SchedulerPath top_level a (l :: ls) c

/-- The forward order on build states: NOT_YET_MADE, CURRENTLY_MAKING,
FINISHED_MAKING. -/
def state_rank : MakeState → Nat
  | .NOT_YET_MADE => 0
  | .CURRENTLY_MAKING => 1
  | .FINISHED_MAKING => 2

/-- How many times a trace transitions the given name from NOT_YET_MADE to
CURRENTLY_MAKING. -/
def claim_count (x : String) : List SchedulerLabel → Nat
  | [] => 0
  | .claim _ n :: rest => (if n.name = x then 1 else 0) + claim_count x rest
  | .finish _ _ :: rest => claim_count x rest

/-- The recipes a RecipeArg stands for: a singleton, or the given list. -/
def RecipeArg.recipes : RecipeArg → List UserRecipe
  | .single r => [r]
  | .list rs => rs

/-- Whether a TemplatesArg is (erroneously) a single string. -/
def TemplatesArg.is_string : TemplatesArg → Bool
  | .str _ => true
  | .list _ => false

theorem except_ok_bind {ε α β : Type} (x : α) (g : α → Except ε β) :
    (Except.ok x >>= g) = g x := rfl

theorem except_error_bind {ε α β : Type} (e : ε) (g : α → Except ε β) :
    ((Except.error e : Except ε α) >>= g) = .error e := rfl

theorem single_target_ok_iff (rules : List Rule) (r : UserRecipe) (name : Pattern)
    (ds ps : List Template) (ph : Bool) :
    (∃ out, single_target rules r name ds ps ph = .ok out) ↔ r.numParameters ≤ 3 := by
  cases r <;> simp [single_target, UserRecipe.numParameters]

theorem fold_single_target_ok (name : Pattern) (ds ps : List Template) (ph : Bool) :
    ∀ (rs : List UserRecipe) (rules : List Rule),
    (∃ out, List.foldlM (fun acc item => single_target acc item name ds ps ph) rules rs = .ok out) ↔
      ∀ r ∈ rs, r.numParameters ≤ 3 := by
  intro rs
  induction rs with
  | nil =>
    intro rules
    simp
    exact ⟨rules, rfl⟩
  | cons r rest ih =>
    intro rules
    rw [List.foldlM_cons]
    cases r with
    | args0 f =>
      rw [show single_target rules (.args0 f) name ds ps ph
          = .ok (rules ++ [⟨name, fun _ _ _ => f, ⟨ds, ps, ph⟩⟩]) from rfl,
        except_ok_bind, ih]
      simp [UserRecipe.numParameters]
    | args1 f =>
      rw [show single_target rules (.args1 f) name ds ps ph
          = .ok (rules ++ [⟨name, fun t _ _ => f t, ⟨ds, ps, ph⟩⟩]) from rfl,
        except_ok_bind, ih]
      simp [UserRecipe.numParameters]
    | args2 f =>
      rw [show single_target rules (.args2 f) name ds ps ph
          = .ok (rules ++ [⟨name, fun t d _ => f t d, ⟨ds, ps, ph⟩⟩]) from rfl,
        except_ok_bind, ih]
      simp [UserRecipe.numParameters]
    | args3 f =>
      rw [show single_target rules (.args3 f) name ds ps ph
          = .ok (rules ++ [⟨name, f, ⟨ds, ps, ph⟩⟩]) from rfl,
        except_ok_bind, ih]
      simp [UserRecipe.numParameters]
    | argsMore n =>
      rw [show single_target rules (.argsMore n) name ds ps ph
          = .error (.makefileUsage ("Too many arguments for rule body")) from rfl,
        except_error_bind]
      constructor
      · intro h
        obtain ⟨out, hout⟩ := h
        exact absurd hout (by simp)
      · intro h
        have h2 := h (UserRecipe.argsMore n) (by simp)
        have h3 : ¬ (UserRecipe.argsMore n).numParameters ≤ 3 := by
          simp [UserRecipe.numParameters]
        exact absurd h2 h3

/-- C2 counterexample: the claim says that once a first domain error has been
captured, a later domain error is discarded.  In the code, except_hook
overwrites worker_mkpy_exception unconditionally, so after two domain errors
the channel holds the second, not the first. -/
theorem claim2_counterexample :
    (run_except_hooks initial_failure_state
        [PyExc.mkpy (.missingTarget ("a")), PyExc.mkpy (.missingTarget ("b"))]).worker_mkpy_exception
      = some (.missingTarget ("b")) ∧
    (some (MkpyExc.missingTarget ("b")) ≠ some (MkpyExc.missingTarget ("a"))) := by
  exact ⟨rfl, by decide⟩

/-- C2 amended: the Failure Channel retains the most recently captured domain
error (each domain error overwrites the previous one; a non-domain error
leaves the captured value unchanged while still setting the abort flag); and
after all workers are joined, a run with the abort flag set raises the
captured domain error, or a generic worker-failed error when only non-domain
errors were captured. -/
theorem claim2_theorem :
    (∀ st e, except_hook st (.mkpy e) = ⟨true, some e⟩) ∧
    (∀ st m, except_hook st (.other m) = ⟨true, st.worker_mkpy_exception⟩) ∧
    (∀ st exc, (except_hook st exc).has_any_worker_thrown_an_exception = true) ∧
    (∀ e, run_make_result ⟨true, some e⟩ = .error e) ∧
    (run_make_result ⟨true, none⟩ = .error (.generic ("Exception thrown in worker"))) ∧
    (∀ c, run_make_result ⟨false, c⟩ = .ok ()) := by
  refine ⟨fun st e => rfl, fun st m => rfl, fun st exc => ?_, fun e => rfl, rfl, fun c => rfl⟩
  cases exc <;> rfl

/-- C9: registration fails with a makefile-usage error in exactly the listed
misuse cases: target succeeds precisely when neither template-list argument
is a single string and every supplied recipe accepts at most 3 parameters;
and a recipe accepting 0, 1, 2 or 3 parameters is appended normalized to the
uniform 3-argument shape. -/
theorem claim9_theorem :
    (∀ rules recipe name depends prerequisites is_phony,
      (∃ out, target rules recipe name depends prerequisites is_phony = .ok out) ↔
        (depends.is_string = false ∧ prerequisites.is_string = false ∧
         ∀ r ∈ recipe.recipes, r.numParameters ≤ 3)) ∧
    (∀ rules name ds ps ph f, single_target rules (.args0 f) name ds ps ph
        = .ok (rules ++ [⟨name, fun _ _ _ => f, ⟨ds, ps, ph⟩⟩])) ∧
    (∀ rules name ds ps ph f, single_target rules (.args1 f) name ds ps ph
        = .ok (rules ++ [⟨name, fun t _ _ => f t, ⟨ds, ps, ph⟩⟩])) ∧
    (∀ rules name ds ps ph f, single_target rules (.args2 f) name ds ps ph
        = .ok (rules ++ [⟨name, fun t d _ => f t d, ⟨ds, ps, ph⟩⟩])) ∧
    (∀ rules name ds ps ph f, single_target rules (.args3 f) name ds ps ph
        = .ok (rules ++ [⟨name, f, ⟨ds, ps, ph⟩⟩])) := by
  refine ⟨?_, fun _ _ _ _ _ _ => rfl, fun _ _ _ _ _ _ => rfl,
    fun _ _ _ _ _ _ => rfl, fun _ _ _ _ _ _ => rfl⟩
  intro rules recipe name depends prerequisites is_phony
  cases depends with
  | str s => simp [target, TemplatesArg.is_string]
  | list ds =>
    cases prerequisites with
    | str s => simp [target, TemplatesArg.is_string]
    | list ps =>
      cases recipe with
      | single r =>
        simp [target, TemplatesArg.is_string, RecipeArg.recipes, single_target_ok_iff]
      | list rs =>
        simp only [target, TemplatesArg.is_string, RecipeArg.recipes]
        rw [fold_single_target_ok]
        simp

/-- C9 witness: a 2-parameter recipe registers successfully. -/
theorem claim9_witness :
    ∃ out, target [] (.single (.args2 (fun _ _ fs => .ok fs)))
      (fun _ => none) (.list []) (.list []) true = .ok out := by
  exact (claim9_theorem.1 [] (.single (.args2 (fun _ _ fs => .ok fs)))
    (fun _ => none) (.list []) (.list []) true).mpr
    (by refine ⟨rfl, rfl, ?_⟩; intro r hr; simp [RecipeArg.recipes] at hr
        subst hr; simp [UserRecipe.numParameters])

/-- C7: after a non-phony node recipe has run, a still-missing target file
raises PhonyUsageException, which sets the abort flag and makes the run fail
with that error; a phony node recipe is never subject to the check: the
section returns exactly the recipe result. -/
theorem claim7_theorem (fs : FS) (node : Node) :
    (node.is_phony = false →
      ∀ fs2, should_run_node_recipe fs node = .ok true →
        node.recipe node.name (node.depends.map Node.name) (node.prerequisites.map Node.name) fs
          = .ok fs2 →
        fs2 node.name = none →
        build_claimed_node fs node = .error (.mkpy (.phonyUsage node.name))) ∧
    (node.is_phony = true →
      build_claimed_node fs node =
        match should_run_node_recipe fs node with
        | .error e => .error e
        | .ok false => .ok fs
        | .ok true =>
          node.recipe node.name (node.depends.map Node.name)
            (node.prerequisites.map Node.name) fs) ∧
    (∀ st, (except_hook st (.mkpy (.phonyUsage node.name))).has_any_worker_thrown_an_exception = true ∧
      run_make_result (except_hook st (.mkpy (.phonyUsage node.name)))
        = .error (.phonyUsage node.name)) := by
  refine ⟨?_, ?_, fun st => ⟨rfl, rfl⟩⟩
  · intro hph fs2 hrun hrec hmiss
    simp [build_claimed_node, hrun, hrec, hph, hmiss]
  · intro hph
    unfold build_claimed_node
    cases hrun : should_run_node_recipe fs node with
    | error e => rfl
    | ok b =>
      cases b with
      | false => rfl
      | true =>
        cases hrec : node.recipe node.name (node.depends.map Node.name)
            (node.prerequisites.map Node.name) fs with
        | error e => rfl
        | ok fs2 => simp [hph]

theorem any_depend_newer_spec (fs : FS) (t : Nat) :
    ∀ ds : List Node, (∀ d ∈ ds, (fs d.name).isSome = true) →
    ∃ b, any_depend_newer fs t ds = .ok b ∧
      (b = true ↔ ∃ d ∈ ds, ∃ td, fs d.name = some td ∧ t < td) := by
  intro ds
  induction ds with
  | nil =>
    intro _
    exact ⟨false, rfl, by simp⟩
  | cons d rest ih =>
    intro h
    have hd : (fs d.name).isSome = true := h d (by simp)
    obtain ⟨td, htd⟩ := Option.isSome_iff_exists.mp hd
    by_cases hlt : t < td
    · refine ⟨true, ?_, ?_⟩
      · simp [any_depend_newer, fs_mtime, htd, hlt]
      · simp
        exact Or.inl ⟨td, htd, hlt⟩
    · obtain ⟨b, hb, hiff⟩ := ih (fun x hx => h x (by simp [hx]))
      refine ⟨b, ?_, ?_⟩
      · simp [any_depend_newer, fs_mtime, htd, hlt]
        exact hb
      · rw [hiff]
        constructor
        · intro hex
          obtain ⟨d2, hd2, hrest⟩ := hex
          exact ⟨d2, by simp [hd2], hrest⟩
        · intro hex
          obtain ⟨d2, hd2, td2, htd2, hlt2⟩ := hex
          rcases List.mem_cons.mp hd2 with heq | hmem
          · subst heq
            rw [htd] at htd2
            cases htd2
            exact absurd hlt2 hlt
          · exact ⟨d2, hmem, td2, htd2, hlt2⟩

/-- C3: the staleness policy runs a node exactly when the node is phony, or
its file is absent, or the node was not reached via a prerequisite edge and
some direct dependency is phony or has a strictly later modification time;
in particular a non-phony node that exists on disk and was reached via a
prerequisite edge is never run.  The hypothesis that every direct dependency
file exists reflects that should_run_node_recipe calls stat on each of them. -/
theorem claim3_theorem (fs : FS) (node : Node)
    (hdeps : ∀ d ∈ node.depends, (fs d.name).isSome = true) :
    (should_run_node_recipe fs node = .ok true ↔
      (node.is_phony = true ∨ fs node.name = none ∨
        (node.is_prerequisite = false ∧
          ((∃ d ∈ node.depends, d.is_phony = true) ∨
           ∃ d ∈ node.depends, ∃ td tn, fs d.name = some td ∧ fs node.name = some tn ∧ tn < td)))) ∧
    (node.is_phony = false → (fs node.name).isSome = true → node.is_prerequisite = true →
      should_run_node_recipe fs node = .ok false) := by
  constructor
  · by_cases hph : node.is_phony
    · simp [should_run_node_recipe, hph]
    · cases hfs : fs node.name with
      | none =>
        have hex : fs_exists fs node.name = false := by simp [fs_exists, hfs]
        simp [should_run_node_recipe, hph, hex, hfs]
      | some tn0 =>
        have hex : fs_exists fs node.name = true := by simp [fs_exists, hfs]
        by_cases hpr : node.is_prerequisite
        · simp [should_run_node_recipe, hph, hex, hpr, hfs]
        · by_cases hphdep : node.depends.any (fun depend => depend.is_phony)
          · simp [should_run_node_recipe, hph, hex, hpr, hphdep, hfs]
            obtain ⟨d, hd, hdph⟩ := List.any_eq_true.mp hphdep
            exact Or.inl ⟨d, hd, hdph⟩
          · obtain ⟨b, hb, hiff⟩ := any_depend_newer_spec fs tn0 node.depends hdeps
            have hrun : should_run_node_recipe fs node = .ok b := by
              simp [should_run_node_recipe, hph, hex, hpr, hphdep, fs_mtime, hfs]
              exact hb
            rw [hrun]
            have hanyfalse : ¬ ∃ d ∈ node.depends, d.is_phony = true := by
              intro ⟨d, hd, hdph⟩
              exact absurd (List.any_eq_true.mpr ⟨d, hd, hdph⟩) hphdep
            constructor
            · intro hok
              have hbt : b = true := by cases hok; rfl
              refine Or.inr (Or.inr ⟨by simpa using hpr, Or.inr ?_⟩)
              obtain ⟨d, hd, td, htd, hlt⟩ := hiff.mp hbt
              exact ⟨d, hd, td, tn0, htd, rfl, hlt⟩
            · intro hcase
              rcases hcase with h1 | h2 | ⟨_, h3 | h4⟩
              · exact absurd h1 (by simpa using hph)
              · exact absurd h2 (by simp)
              · exact absurd h3 hanyfalse
              · obtain ⟨d, hd, td, tn, htd, htn, hlt⟩ := h4
                have htn2 : tn0 = tn := by injection htn
                subst htn2
                have hbt : b = true := hiff.mpr ⟨d, hd, td, htd, hlt⟩
                rw [hbt]
  · intro hph hex hpr
    simp [should_run_node_recipe, hph, fs_exists, hex, hpr]

/-- A dependency file named dep with modification time 9. -/
def fs_dep_newer : FS := fun s =>
  if s = ("dep") then some 9 else if s = ("tgt") then some 3 else none

/-- The dependency node for the file dep. -/
def node_dep : Node := Node.mk ("dep") false false source_file_recipe [] []

/-- A non-phony target node depending on node_dep. -/
def node_tgt : Node := Node.mk ("tgt") false false (fun _ _ _ fs => .ok fs) [node_dep] []

/-- C3 witness: with the dependency file strictly newer than the target
file, the staleness policy decides to run the target node. -/
theorem claim3_witness : should_run_node_recipe fs_dep_newer node_tgt = .ok true := by
  have h := claim3_theorem fs_dep_newer node_tgt
    (by intro d hd
        simp [node_tgt, Node.depends] at hd
        subst hd
        simp [node_dep, Node.name, fs_dep_newer])
  refine h.1.mpr (Or.inr (Or.inr ⟨rfl, Or.inr ?_⟩))
  refine ⟨node_dep, by simp [node_tgt, Node.depends], 9, 3, ?_, ?_, by omega⟩
  · simp [node_dep, Node.name, fs_dep_newer]
  · simp [node_tgt, Node.name, fs_dep_newer]

theorem try_rules_no_match (recurse : Resolver) (target_name : String)
    (satisfied_targets : List String) (is_prerequisite : Bool) :
    ∀ (rl : List Rule) (top_level : Option Node) (last_missing_target : Option MkpyExc),
    (∀ r ∈ rl, r.matcher target_name = none) →
    try_rules recurse target_name satisfied_targets is_prerequisite rl top_level last_missing_target
      = some (.ok (top_level, last_missing_target)) := by
  intro rl
  induction rl with
  | nil => intro top lm _; rfl
  | cons r rest ih =>
    intro top lm h
    have hr : r.matcher target_name = none := h r (by simp)
    simp only [try_rules, hr]
    exact ih top lm (fun x hx => h x (by simp [hx]))

/-- C5: when the rule loop leaves top_level unset (no rule matched, or every
matching rule was made inapplicable by a missing-target failure), resolution
fails with a missing-target error when no file with that name exists,
propagating the recorded fallback error if one was remembered, and otherwise
returns a non-phony leaf Node with that name, empty depends and
prerequisites, and the source_file_recipe, which merely asserts that its
argument lists are empty and that the file exists. -/
theorem claim5_theorem (rules : List Rule) (fs : FS) (fuel : Nat)
    (target_name : String) (satisfied_targets : List String) (is_prerequisite : Bool) :
    (∀ last_missing_target,
      try_rules (generate_dependency_graph rules fs fuel) target_name satisfied_targets
          is_prerequisite rules none none = some (.ok (none, last_missing_target)) →
      generate_dependency_graph rules fs (fuel + 1) target_name satisfied_targets is_prerequisite =
        if (fs target_name).isSome then
          some (.ok (Node.mk target_name false is_prerequisite source_file_recipe [] []))
        else
          some (.error (last_missing_target.getD (.missingTarget target_name)))) ∧
    ((∀ r ∈ rules, r.matcher target_name = none) →
      try_rules (generate_dependency_graph rules fs fuel) target_name satisfied_targets
          is_prerequisite rules none none = some (.ok (none, none))) ∧
    (∀ t fs2, source_file_recipe t [] [] fs2 =
      if (fs2 t).isSome then .ok fs2 else .error (.other ("AssertionError"))) := by
  refine ⟨?_, ?_, ?_⟩
  · intro lm h
    simp only [generate_dependency_graph, h]
  · intro h
    exact try_rules_no_match (generate_dependency_graph rules fs fuel) target_name
      satisfied_targets is_prerequisite rules none none h
  · intro t fs2
    simp [source_file_recipe]

/-- A filesystem snapshot containing a single file named a. -/
def fs_only_a : FS := fun s => if s = ("a") then some 0 else none

/-- C5 witness: with no rules, the goal a resolves to the synthesized source
leaf when the file a exists, and the goal b fails with a missing-target
error when the file b does not exist. -/
theorem claim5_witness :
    generate_dependency_graph [] fs_only_a 1 ("a") [] false
      = some (.ok (Node.mk ("a") false false source_file_recipe [] [])) ∧
    generate_dependency_graph [] fs_only_a 1 ("b") [] false
      = some (.error (.missingTarget ("b"))) := by
  constructor
  · have h := (claim5_theorem [] fs_only_a 0 ("a") [] false).1 none
      ((claim5_theorem [] fs_only_a 0 ("a") [] false).2.1 (by intro r hr; cases hr))
    rw [h]
    simp [fs_only_a]
  · have h := (claim5_theorem [] fs_only_a 0 ("b") [] false).1 none
      ((claim5_theorem [] fs_only_a 0 ("b") [] false).2.1 (by intro r hr; cases hr))
    rw [h]
    simp [fs_only_a]

/-- A filesystem snapshot with no files at all. -/
def fs_empty : FS := fun _ => none

/-- A rule matching exactly the name goal with no dependencies: its template
expansion always resolves successfully. -/
def rule_resolving : Rule :=
  ⟨fun s => if s = ("goal") then some [] else none, fun _ _ _ fs => .ok fs, ⟨[], [], true⟩⟩

/-- A rule matching exactly the name goal whose single dependency template
expands to the name missing, which no rule and no file satisfies: expanding
this rule fails with a missing-target error in its own subtree. -/
def rule_with_missing_dep : Rule :=
  ⟨fun s => if s = ("goal") then some [] else none, fun _ _ _ fs => .ok fs,
    ⟨[fun _ => ("missing")], [], true⟩⟩

/-- C1 counterexample: with the successfully-resolving rule registered first
and the missing-target-failing rule second, resolution of goal raises the
duplicate-target error, although the claim says the other rule resolves
normally and no duplicate-target error is raised regardless of the order.
The third conjunct confirms that the second rule on its own indeed fails via
a missing-target error in its own subtree, and the second conjunct shows the
opposite registry order resolves normally. -/
theorem claim1_counterexample :
    generate_dependency_graph [rule_resolving, rule_with_missing_dep] fs_empty 10 ("goal") [] false
      = some (.error (.duplicateTarget ("goal"))) ∧
    (∃ n, generate_dependency_graph [rule_with_missing_dep, rule_resolving] fs_empty 10 ("goal") [] false
      = some (.ok n)) ∧
    generate_dependency_graph [rule_with_missing_dep] fs_empty 10 ("goal") [] false
      = some (.error (.missingTarget ("missing"))) := by
  exact ⟨rfl, ⟨_, rfl⟩, rfl⟩

/-- C1 amended: because the template maps are forced only after the
duplicate check, a rule that matches the goal after an earlier rule has
already resolved successfully raises the duplicate-target error immediately,
before its own template expansion is attempted — even if that expansion
would have failed with a missing-target error.  Only when the
missing-target-failing rule precedes the succeeding rule in the registry is
it skipped (with its error recorded as the fallback) so that the succeeding
rule resolves normally.  The outcome for one succeeding and one
missing-target-failing matching rule therefore depends on registry order. -/
theorem claim1_theorem (recurse : Resolver) (target_name : String)
    (satisfied_targets : List String) (is_prerequisite : Bool) (rule : Rule)
    (rest : List Rule) (top_level : Node) (last_missing_target : Option MkpyExc)
    (groups : List String) :
    (rule.matcher target_name = some groups →
      try_rules recurse target_name satisfied_targets is_prerequisite (rule :: rest)
          (some top_level) last_missing_target
        = some (.error (.duplicateTarget target_name))) ∧
    (∀ t, rule.matcher target_name = some groups →
      expand_templates recurse target_name satisfied_targets groups false
          rule.requirements.depends = some (.error (.missingTarget t)) →
      try_rules recurse target_name satisfied_targets is_prerequisite (rule :: rest)
          none last_missing_target
        = try_rules recurse target_name satisfied_targets is_prerequisite rest
            none (some (.missingTarget t))) := by
  constructor
  · intro hmatch
    simp [try_rules, hmatch]
  · intro t hmatch hexpand
    simp [try_rules, hmatch, hexpand]

/-- C1 amended witness: instantiated at the missing-target-failing rule as
the first registry entry, with the generated-graph resolver on the empty
filesystem. -/
theorem claim1_witness :
    try_rules (generate_dependency_graph [rule_with_missing_dep, rule_resolving] fs_empty 9)
        ("goal") [] false [rule_with_missing_dep, rule_resolving] none none
      = try_rules (generate_dependency_graph [rule_with_missing_dep, rule_resolving] fs_empty 9)
        ("goal") [] false [rule_resolving] none (some (.missingTarget ("missing"))) ∧
    try_rules (generate_dependency_graph [rule_with_missing_dep, rule_resolving] fs_empty 9)
        ("goal") [] false [rule_with_missing_dep]
        (some (Node.mk ("goal") true false rule_resolving.recipe [] [])) none
      = some (.error (.duplicateTarget ("goal"))) := by
  constructor
  · exact (claim1_theorem (generate_dependency_graph [rule_with_missing_dep, rule_resolving] fs_empty 9)
      ("goal") [] false rule_with_missing_dep [rule_resolving]
      (Node.mk ("goal") true false rule_resolving.recipe [] []) none []).2
      ("missing") rfl rfl
  · exact (claim1_theorem (generate_dependency_graph [rule_with_missing_dep, rule_resolving] fs_empty 9)
      ("goal") [] false rule_with_missing_dep []
      (Node.mk ("goal") true false rule_resolving.recipe [] []) none []).1 rfl

theorem node_sizeOf_pos (n : Node) : 0 < sizeOf n := by
  cases n
  simp

theorem search_children_ok (states : TargetStates) (top_level : Node) :
    ∀ (children : List Node) (waiting : Bool) (n : Node),
    search_children states top_level children waiting = .ok n →
    (∃ c ∈ children, get_next_node_to_build states c = .ok n) ∨
    (n = top_level ∧ waiting = false ∧
      ∀ c ∈ children, states c.name = .FINISHED_MAKING) := by
  intro children
  induction children with
  | nil =>
    intro waiting n h
    simp only [search_children] at h
    cases waiting with
    | true => exact absurd h (by simp)
    | false =>
      right
      refine ⟨?_, rfl, by simp⟩
      simpa using h.symm
  | cons c rest ih =>
    intro waiting n h
    simp only [search_children, ite_self] at h
    by_cases hc : states c.name = MakeState.NOT_YET_MADE
    · rw [if_pos hc] at h
      cases hrec : get_next_node_to_build states c with
      | ok m =>
        rw [hrec] at h
        simp at h
        subst h
        exact Or.inl ⟨c, by simp, hrec⟩
      | error e =>
        rw [hrec] at h
        cases e with
        | makeBlocked =>
          simp at h
          rcases ih true n h with ⟨c2, hc2, hrec2⟩ | ⟨_, hfalse, _⟩
          · exact Or.inl ⟨c2, by simp [hc2], hrec2⟩
          · cases hfalse
        | makefileUsage d => exact absurd h (by simp)
        | phonyUsage t => exact absurd h (by simp)
        | missingTarget t => exact absurd h (by simp)
        | duplicateTarget t => exact absurd h (by simp)
        | circularDependency t d => exact absurd h (by simp)
        | makeFinished => exact absurd h (by simp)
        | generic m => exact absurd h (by simp)
    · rw [if_neg hc] at h
      by_cases hcm : states c.name = MakeState.CURRENTLY_MAKING
      · rw [if_pos hcm] at h
        rcases ih true n h with ⟨c2, hc2, hrec2⟩ | ⟨_, hfalse, _⟩
        · exact Or.inl ⟨c2, by simp [hc2], hrec2⟩
        · cases hfalse
      · rw [if_neg hcm] at h
        rcases ih waiting n h with ⟨c2, hc2, hrec2⟩ | ⟨hn, hw, hrest⟩
        · exact Or.inl ⟨c2, by simp [hc2], hrec2⟩
        · have hcf : states c.name = MakeState.FINISHED_MAKING := by
            cases hval : states c.name with
            | NOT_YET_MADE => exact absurd hval hc
            | CURRENTLY_MAKING => exact absurd hval hcm
            | FINISHED_MAKING => rfl
          refine Or.inr ⟨hn, hw, ?_⟩
          intro x hx
          rcases List.mem_cons.mp hx with heq | hmem
          · subst heq; exact hcf
          · exact hrest x hmem

theorem get_next_ok_spec : ∀ (k : Nat) (states : TargetStates) (top_level n : Node),
    sizeOf top_level ≤ k →
    get_next_node_to_build states top_level = .ok n →
    states n.name = .NOT_YET_MADE ∧
    ∀ c ∈ n.depends ++ n.prerequisites, states c.name = .FINISHED_MAKING := by
  intro k
  induction k with
  | zero =>
    intro states top_level n hsz _
    have := node_sizeOf_pos top_level
    omega
  | succ k ih =>
    intro states top_level n hsz h
    simp only [get_next_node_to_build] at h
    by_cases hguard : states top_level.name ≠ MakeState.NOT_YET_MADE
    · rw [if_pos hguard] at h
      exact absurd h (by simp)
    · rw [if_neg hguard] at h
      rcases search_children_ok states top_level _ false n h with ⟨c, hc, hrec⟩ | ⟨hn, _, hall⟩
      · refine ih states c n ?_ hrec
        have h1 := List.sizeOf_lt_of_mem hc
        have h2 := sizeOf_children_lt top_level
        omega
      · subst hn
        exact ⟨by simpa using hguard, hall⟩

theorem search_children_no_nym (states : TargetStates) (top_level : Node) :
    ∀ (children : List Node) (waiting : Bool),
    (∀ c ∈ children, states c.name ≠ MakeState.NOT_YET_MADE) →
    search_children states top_level children waiting =
      if (waiting || children.any (fun c => decide (states c.name = MakeState.CURRENTLY_MAKING))) then
        .error .makeBlocked
      else .ok top_level := by
  intro children
  induction children with
  | nil =>
    intro waiting _
    simp [search_children]
  | cons c rest ih =>
    intro waiting h
    have hc := h c (by simp)
    simp only [search_children, if_neg hc]
    have hrest : ∀ x ∈ rest, states x.name ≠ MakeState.NOT_YET_MADE :=
      fun x hx => h x (by simp [hx])
    by_cases hcm : states c.name = MakeState.CURRENTLY_MAKING
    · rw [if_pos hcm, ih true hrest]
      simp [hcm]
    · rw [if_neg hcm, ih waiting hrest]
      simp [hcm]

/-- C6: the claim search returns a node only when every one of the
dependency and prerequisite children of that node is FINISHED_MAKING (and it
is NOT_YET_MADE); a node with a CURRENTLY_MAKING child is never the returned
node; and when a NOT_YET_MADE root has no NOT_YET_MADE child but some child
is CURRENTLY_MAKING, the search reports blocked, claiming nothing. -/
theorem claim6_theorem (states : TargetStates) (top_level n : Node) :
    (get_next_node_to_build states top_level = .ok n →
      states n.name = .NOT_YET_MADE ∧
      ∀ c ∈ n.depends ++ n.prerequisites, states c.name = .FINISHED_MAKING) ∧
    ((∃ c ∈ top_level.depends ++ top_level.prerequisites,
        states c.name = MakeState.CURRENTLY_MAKING) →
      get_next_node_to_build states top_level ≠ .ok top_level) ∧
    (states top_level.name = MakeState.NOT_YET_MADE →
      (∀ c ∈ top_level.depends ++ top_level.prerequisites,
        states c.name ≠ MakeState.NOT_YET_MADE) →
      (∃ c ∈ top_level.depends ++ top_level.prerequisites,
        states c.name = MakeState.CURRENTLY_MAKING) →
      get_next_node_to_build states top_level = .error .makeBlocked) := by
  refine ⟨?_, ?_, ?_⟩
  · intro h
    exact get_next_ok_spec (sizeOf top_level) states top_level n (by omega) h
  · intro hex hok
    obtain ⟨c, hc, hcm⟩ := hex
    have hall := (get_next_ok_spec (sizeOf top_level) states top_level top_level (by omega) hok).2
    have := hall c hc
    rw [hcm] at this
    cases this
  · intro hguard hnonym hex
    simp only [get_next_node_to_build, hguard]
    rw [if_neg (by simp), search_children_no_nym states top_level _ false hnonym]
    obtain ⟨c, hc, hcm⟩ := hex
    have hany : (top_level.depends ++ top_level.prerequisites).any
        (fun c => decide (states c.name = MakeState.CURRENTLY_MAKING)) = true :=
      List.any_eq_true.mpr ⟨c, hc, by simp [hcm]⟩
    simp [hany]

/-- The target states in which the single child c of parent_p is being made
by another worker. -/
def states_child_making : TargetStates :=
  fun s => if s = ("c") then .CURRENTLY_MAKING else .NOT_YET_MADE

/-- A leaf node for the child name c. -/
def child_c : Node := Node.mk ("c") false false source_file_recipe [] []

/-- A parent node depending on child_c. -/
def parent_p : Node := Node.mk ("p") false false source_file_recipe [child_c] []

/-- C6 witness: with the only child currently being made, the claim search
on the parent reports blocked. -/
theorem claim6_witness :
    get_next_node_to_build states_child_making parent_p = .error .makeBlocked := by
  refine (claim6_theorem states_child_making parent_p parent_p).2.2 rfl ?_ ?_
  · intro c hc
    simp [parent_p, Node.depends, Node.prerequisites] at hc
    subst hc
    simp [child_c, Node.name, states_child_making]
  · refine ⟨child_c, by simp [parent_p, Node.depends, Node.prerequisites], ?_⟩
    simp [child_c, Node.name, states_child_making]

/-- The invariant linking the holdings to the state map: every held node is
CURRENTLY_MAKING, and two distinct workers never hold nodes of equal name. -/
def holdings_valid (c : SchedulerConfig) : Prop :=
  (∀ w n, c.holding w = some n → c.states n.name = MakeState.CURRENTLY_MAKING) ∧
  (∀ w v n m, w ≠ v → c.holding w = some n → c.holding v = some m → n.name ≠ m.name)

theorem scheduler_init_valid : holdings_valid scheduler_init := by
  constructor
  · intro w n h
    cases h
  · intro w v n m _ h
    cases h

theorem step_preserves_valid {top_level : Node} {a : SchedulerConfig}
    {l : SchedulerLabel} {b : SchedulerConfig}
    (hstep : SchedulerStep top_level a l b) (hv : holdings_valid a) :
    holdings_valid b := by
  cases hstep with
  | claim w n hfree hsearch =>
    have hnym : a.states n.name = MakeState.NOT_YET_MADE :=
      (get_next_ok_spec (sizeOf top_level) a.states top_level n (by omega) hsearch).1
    constructor
    · intro v m hvm
      simp only [set_holding] at hvm
      by_cases hvw : v = w
      · rw [if_pos hvw] at hvm
        cases hvm
        simp [set_state]
      · rw [if_neg hvw] at hvm
        have hcm := hv.1 v m hvm
        simp only [set_state]
        by_cases hname : m.name = n.name
        · simp [hname]
        · simp [hname, hcm]
    · intro u v m1 m2 huv h1 h2
      simp only [set_holding] at h1 h2
      by_cases huw : u = w
      · rw [if_pos huw] at h1
        cases h1
        have hvw : ¬ v = w := fun hc => huv (huw.trans hc.symm)
        rw [if_neg hvw] at h2
        have hcm := hv.1 v m2 h2
        intro heq
        rw [heq, hcm] at hnym
        cases hnym
      · rw [if_neg huw] at h1
        by_cases hvw : v = w
        · rw [if_pos hvw] at h2
          cases h2
          have hcm := hv.1 u m1 h1
          intro heq
          rw [← heq, hcm] at hnym
          cases hnym
        · rw [if_neg hvw] at h2
          exact hv.2 u v m1 m2 huv h1 h2
  | finish w n hheld =>
    constructor
    · intro v m hvm
      simp only [set_holding] at hvm
      by_cases hvw : v = w
      · rw [if_pos hvw] at hvm
        cases hvm
      · rw [if_neg hvw] at hvm
        have hcm := hv.1 v m hvm
        have hne : m.name ≠ n.name := hv.2 v w m n hvw hvm hheld
        simp [set_state, hne, hcm]
    · intro u v m1 m2 huv h1 h2
      simp only [set_holding] at h1 h2
      by_cases huw : u = w
      · rw [if_pos huw] at h1
        cases h1
      · rw [if_neg huw] at h1
        by_cases hvw : v = w
        · rw [if_pos hvw] at h2
          cases h2
        · rw [if_neg hvw] at h2
          exact hv.2 u v m1 m2 huv h1 h2

theorem step_monotone {top_level : Node} {a : SchedulerConfig}
    {l : SchedulerLabel} {b : SchedulerConfig}
    (hstep : SchedulerStep top_level a l b) (hv : holdings_valid a) :
    ∀ x, state_rank (a.states x) ≤ state_rank (b.states x) := by
  intro x
  cases hstep with
  | claim w n hfree hsearch =>
    have hnym : a.states n.name = MakeState.NOT_YET_MADE :=
      (get_next_ok_spec (sizeOf top_level) a.states top_level n (by omega) hsearch).1
    simp only [set_state]
    by_cases hx : x = n.name
    · subst hx
      rw [hnym]
      simp [state_rank]
    · simp [hx]
  | finish w n hheld =>
    have hcm := hv.1 w n hheld
    simp only [set_state]
    by_cases hx : x = n.name
    · subst hx
      rw [hcm]
      simp [state_rank]
    · simp [hx]

theorem path_preserves_valid {top_level : Node} :
    ∀ {ls : List SchedulerLabel} {a b : SchedulerConfig},
    holdings_valid a → SchedulerPath top_level a ls b → holdings_valid b := by
  intro ls a b hv hpath
  induction hpath with
  | nil _ => exact hv
  | cons hstep _ ih => exact ih (step_preserves_valid hstep hv)

theorem path_monotone {top_level : Node} :
    ∀ {ls : List SchedulerLabel} {a b : SchedulerConfig},
    holdings_valid a → SchedulerPath top_level a ls b →
    ∀ x, state_rank (a.states x) ≤ state_rank (b.states x) := by
  intro ls a b hv hpath
  induction hpath with
  | nil _ => intro x; exact le_refl _
  | cons hstep _ ih =>
    intro x
    exact le_trans (step_monotone hstep hv x) (ih (step_preserves_valid hstep hv) x)

theorem state_rank_le_two (s : MakeState) : state_rank s ≤ 2 := by
  cases s <;> simp [state_rank]

theorem rank_two_iff (s : MakeState) :
    2 ≤ state_rank s ↔ s = MakeState.FINISHED_MAKING := by
  cases s <;> simp [state_rank]

/-- C8: along any interleaving of worker critical sections starting from the
initial scheduler state, the build state of every name only moves forward in
rank along NOT_YET_MADE, CURRENTLY_MAKING, FINISHED_MAKING, and a name that
has reached FINISHED_MAKING stays FINISHED_MAKING. -/
theorem claim8_theorem (top_level : Node) (ls ls2 : List SchedulerLabel)
    (c c2 : SchedulerConfig) (x : String)
    (h1 : SchedulerPath top_level scheduler_init ls c)
    (h2 : SchedulerPath top_level c ls2 c2) :
    state_rank (c.states x) ≤ state_rank (c2.states x) ∧
    (c.states x = MakeState.FINISHED_MAKING → c2.states x = MakeState.FINISHED_MAKING) := by
  have hvc : holdings_valid c := path_preserves_valid scheduler_init_valid h1
  have hmono := path_monotone hvc h2 x
  refine ⟨hmono, ?_⟩
  intro hfm
  rw [hfm] at hmono
  exact (rank_two_iff (c2.states x)).mp (le_trans (by simp [state_rank]) hmono)

theorem path_claims_zero {top_level : Node} (x : String) :
    ∀ {ls : List SchedulerLabel} {a b : SchedulerConfig},
    holdings_valid a → SchedulerPath top_level a ls b →
    a.states x ≠ MakeState.NOT_YET_MADE → claim_count x ls = 0 := by
  intro ls a b hv hpath
  induction hpath with
  | nil _ => intro _; rfl
  | cons hstep hrest ih =>
    intro hx
    have hv2 := step_preserves_valid hstep hv
    cases hstep with
    | claim w n hfree hsearch =>
      have hnym :=
        (get_next_ok_spec (sizeOf top_level) _ top_level n (by omega) hsearch).1
      have hname : ¬ n.name = x := by
        intro heq
        rw [heq] at hnym
        exact hx hnym
      simp only [claim_count, if_neg hname, Nat.zero_add]
      refine ih hv2 ?_
      intro hcon
      simp only [set_state] at hcon
      rw [if_neg (fun hc : x = n.name => hname hc.symm)] at hcon
      exact hx hcon
    | finish w n hheld =>
      simp only [claim_count]
      refine ih hv2 ?_
      intro hcon
      simp only [set_state] at hcon
      by_cases hxe : x = n.name
      · rw [if_pos hxe] at hcon
        cases hcon
      · rw [if_neg hxe] at hcon
        exact hx hcon

theorem path_claims_le_one {top_level : Node} (x : String) :
    ∀ {ls : List SchedulerLabel} {a b : SchedulerConfig},
    holdings_valid a → SchedulerPath top_level a ls b →
    claim_count x ls ≤ 1 := by
  intro ls a b hv hpath
  induction hpath with
  | nil _ => simp [claim_count]
  | cons hstep hrest ih =>
    have hv2 := step_preserves_valid hstep hv
    cases hstep with
    | claim w n hfree hsearch =>
      by_cases hname : n.name = x
      · have hzero := path_claims_zero x hv2 hrest (by
          intro hcon
          simp only [set_state] at hcon
          rw [hname] at hcon
          simp at hcon)
        simp only [claim_count, if_pos hname]
        omega
      · simp only [claim_count, if_neg hname]
        have := ih hv2
        omega
    | finish w n hheld =>
      simp only [claim_count]
      exact ih hv2

/-- C10: along any interleaving of worker critical sections starting from
the initial scheduler state, every name is transitioned from NOT_YET_MADE to
CURRENTLY_MAKING at most once, because the atomic claim step only returns a
node whose state is NOT_YET_MADE and no state ever returns to NOT_YET_MADE;
hence each name is claimed, and so has its recipe invoked, at most once. -/
theorem claim10_theorem (top_level : Node) (ls : List SchedulerLabel)
    (c : SchedulerConfig) (x : String)
    (hpath : SchedulerPath top_level scheduler_init ls c) :
    claim_count x ls ≤ 1 :=
  path_claims_le_one x scheduler_init_valid hpath

/-- A leaf node named a used to build a concrete scheduler trace. -/
def leaf_a : Node := Node.mk ("a") false false source_file_recipe [] []

theorem leaf_a_claim_search :
    get_next_node_to_build scheduler_init.states leaf_a = .ok leaf_a := by
  simp [get_next_node_to_build, search_children, scheduler_init, initial_target_states,
    leaf_a, Node.name, Node.depends, Node.prerequisites]

/-- The configuration after worker 0 claims leaf_a from the initial state. -/
def after_claim_a : SchedulerConfig :=
  ⟨set_state scheduler_init.states leaf_a.name .CURRENTLY_MAKING,
   set_holding scheduler_init.holding 0 (some leaf_a)⟩

/-- C8 witness: along the concrete one-step trace where worker 0 claims
leaf_a, the rank of the state of the name a does not decrease. -/
theorem claim8_witness :
    state_rank (scheduler_init.states ("a")) ≤ state_rank (after_claim_a.states ("a")) :=
  (claim8_theorem leaf_a [] [SchedulerLabel.claim 0 leaf_a] scheduler_init after_claim_a ("a")
    (SchedulerPath.nil scheduler_init)
    (SchedulerPath.cons
      (SchedulerStep.claim scheduler_init 0 leaf_a rfl leaf_a_claim_search)
      (SchedulerPath.nil after_claim_a))).1

/-- C10 witness: the concrete one-step trace claiming leaf_a claims the name
a at most once. -/
theorem claim10_witness :
    claim_count ("a") [SchedulerLabel.claim 0 leaf_a] ≤ 1 :=
  claim10_theorem leaf_a [SchedulerLabel.claim 0 leaf_a] after_claim_a ("a")
    (SchedulerPath.cons
      (SchedulerStep.claim scheduler_init 0 leaf_a rfl leaf_a_claim_search)
      (SchedulerPath.nil after_claim_a))

/-- A finite name universe S is closed under the rule set when every
template expansion of a matching rule at a name of S stays inside S. -/
def rules_closed (S : Finset String) (rules : List Rule) : Prop :=
  ∀ name ∈ S, ∀ r ∈ rules, ∀ groups, r.matcher name = some groups →
    (∀ t ∈ r.requirements.depends, t groups ∈ S) ∧
    (∀ t ∈ r.requirements.prerequisites, t groups ∈ S)

theorem gen_graph_ne_none (S : Finset String) (rules : List Rule) (fs : FS)
    (hclosed : rules_closed S rules) :
    ∀ (fuel : Nat) (tn : String) (sat : List String) (ispre : Bool),
    tn ∈ S → (S \ sat.toFinset).card < fuel →
    generate_dependency_graph rules fs fuel tn sat ispre ≠ none := by
  intro fuel
  induction fuel with
  | zero =>
    intro tn sat ispre _ hcard
    omega
  | succ fuel ih =>
    intro tn sat ispre htn hcard
    have hexpand : ∀ (templates : List Template) (groups : List String) (b : Bool),
        (∀ t ∈ templates, t groups ∈ S) →
        expand_templates (generate_dependency_graph rules fs fuel) tn sat groups b templates
          ≠ none := by
      intro templates
      induction templates with
      | nil =>
        intro groups b _
        simp [expand_templates]
      | cons t rest ihT =>
        intro groups b hT
        simp only [expand_templates]
        by_cases hmem : t groups ∈ sat
        · rw [if_pos hmem]
          simp
        · rw [if_neg hmem]
          have htS : t groups ∈ S := hT t (by simp)
          have hrec : generate_dependency_graph rules fs fuel (t groups) (t groups :: sat) b
              ≠ none := by
            refine ih (t groups) (t groups :: sat) b htS ?_
            have hmem2 : t groups ∈ S \ sat.toFinset :=
              Finset.mem_sdiff.mpr ⟨htS, by
                intro hcon
                exact hmem (List.mem_toFinset.mp hcon)⟩
            have hlt : (S \ (t groups :: sat).toFinset).card < (S \ sat.toFinset).card := by
              rw [List.toFinset_cons, Finset.sdiff_insert]
              exact Finset.card_erase_lt_of_mem hmem2
            omega
          cases hgen : generate_dependency_graph rules fs fuel (t groups) (t groups :: sat) b with
          | none => exact absurd hgen hrec
          | some res =>
            cases res with
            | error e => simp
            | ok node =>
              cases hrest : expand_templates (generate_dependency_graph rules fs fuel)
                  tn sat groups b rest with
              | none => exact absurd hrest (ihT groups b (fun x hx => hT x (by simp [hx])))
              | some res2 => cases res2 <;> simp
    have htry : ∀ (rl : List Rule) (top_level : Option Node) (lm : Option MkpyExc),
        (∀ r ∈ rl, r ∈ rules) →
        try_rules (generate_dependency_graph rules fs fuel) tn sat ispre rl top_level lm
          ≠ none := by
      intro rl
      induction rl with
      | nil =>
        intro top_level lm _
        simp [try_rules]
      | cons r rest ihR =>
        intro top_level lm hsub
        cases hmatch : r.matcher tn with
        | none =>
          simp only [try_rules, hmatch]
          exact ihR top_level lm (fun x hx => hsub x (by simp [hx]))
        | some groups =>
          simp only [try_rules, hmatch]
          by_cases htop : top_level.isSome
          · rw [if_pos htop]
            simp
          · rw [if_neg htop]
            have hclo := hclosed tn htn r (hsub r (by simp)) groups hmatch
            cases hdeps : expand_templates (generate_dependency_graph rules fs fuel)
                tn sat groups false r.requirements.depends with
            | none => exact absurd hdeps (hexpand _ groups false hclo.1)
            | some res =>
              cases res with
              | error e =>
                cases e <;>
                  first
                  | exact ihR top_level _ (fun x hx => hsub x (by simp [hx]))
                  | simp
              | ok dep_nodes =>
                cases hpres : expand_templates (generate_dependency_graph rules fs fuel)
                    tn sat groups true r.requirements.prerequisites with
                | none => exact absurd hpres (hexpand _ groups true hclo.2)
                | some res2 =>
                  cases res2 with
                  | error e =>
                    cases e <;>
                      first
                      | exact ihR top_level _ (fun x hx => hsub x (by simp [hx]))
                      | simp
                  | ok pre_nodes =>
                    exact ihR _ lm (fun x hx => hsub x (by simp [hx]))
    simp only [generate_dependency_graph]
    cases htr : try_rules (generate_dependency_graph rules fs fuel) tn sat ispre
        rules none none with
    | none => exact absurd htr (htry rules none none (fun x hx => hx))
    | some res =>
      cases res with
      | error e => simp
      | ok pair =>
        obtain ⟨top_level, lm⟩ := pair
        cases top_level with
        | some node => simp
        | none =>
          by_cases hfs : (fs tn).isSome
          · simp [hfs]
          · simp [hfs]

/-- C4: a template whose expansion equals a name in the threaded ancestor
set makes graph construction return the circular-dependency error naming the
current target and the repeated name, without recursing; and over any finite
name universe closed under the rule expansions (the setting in which a rule
set can form a dependency cycle), resolution always completes within fuel
exceeding the number of not-yet-visited names, so the builder never loops
forever: a cyclic chain is instead cut by the ancestor-set check. -/
theorem claim4_theorem :
    (∀ (recurse : Resolver) (target_name : String) (satisfied_targets : List String)
        (groups : List String) (is_prerequisite : Bool) (template : Template)
        (rest : List Template),
      template groups ∈ satisfied_targets →
      expand_templates recurse target_name satisfied_targets groups is_prerequisite
          (template :: rest)
        = some (.error (.circularDependency target_name (template groups)))) ∧
    (∀ (S : Finset String) (rules : List Rule) (fs : FS),
      rules_closed S rules →
      ∀ (fuel : Nat) (tn : String) (sat : List String) (ispre : Bool),
      tn ∈ S → (S \ sat.toFinset).card < fuel →
      generate_dependency_graph rules fs fuel tn sat ispre ≠ none) := by
  constructor
  · intro recurse target_name satisfied_targets groups is_prerequisite template rest h
    simp [expand_templates, h]
  · exact fun S rules fs hclosed => gen_graph_ne_none S rules fs hclosed

/-- C4 witness: the circular check fires on a concrete repeated ancestor,
and on the singleton universe containing g the builder completes. -/
theorem claim4_witness :
    expand_templates (generate_dependency_graph [] fs_empty 3) ("g") [("x")] [] false
        [fun _ => ("x")]
      = some (.error (.circularDependency ("g") ("x"))) ∧
    generate_dependency_graph [] fs_empty 2 ("g") [] false ≠ none := by
  constructor
  · exact claim4_theorem.1 (generate_dependency_graph [] fs_empty 3) ("g") [("x")] [] false
      (fun _ => ("x")) [] (by simp)
  · exact claim4_theorem.2 {("g")} [] fs_empty
      (by intro name _ r hr; cases hr) 2 ("g") [] false (by simp) (by simp)

/-- A concrete filesystem with a single file named src. -/
def fs_src : FS := fun s => if s = ("src") then some 5 else none

/-- A non-phony node whose recipe leaves the filesystem unchanged (and so
never produces the target file named out). -/
def node_out : Node := Node.mk ("out") false false (fun _ _ _ fs => .ok fs) [] []

/-- C7 witness: running the recipe of node_out on fs_src leaves the target
file missing, so the section fails with the phony-usage error. -/
theorem claim7_witness :
    build_claimed_node fs_src node_out = .error (.mkpy (.phonyUsage (Node.name node_out))) := by
  exact (claim7_theorem fs_src node_out).1 rfl fs_src rfl rfl rfl

end Mkpy
